import Mathlib

/-!
Verification development for the DocHive retrieval-and-answer pipeline
(backend/services/search_agent.py, backend/services/intent_router.py,
backend/api/v1/qa.py).

The Python sources are embedded shallowly:

* Pure text functions (normalize_text, compute_simhash, hamming_distance,
  compute_shingles, jaccard_similarity, should_remove_duplicate and the
  deduplication pass) are translated directly into executable Lean
  functions on lists of characters / strings.
* External collaborators are parameters: SHA-256 and MD5 (hashlib) appear
  as an oracle record of arbitrary functions, difflib.SequenceMatcher's
  ratio as an arbitrary function into the rationals, the LLM, the
  relational store and the full-text index as Except-valued parameters.
  Python floats are idealized as rationals (the thresholds 0.5, 0.75,
  0.80 used by the source are the intended exact constants).
* Python sets of document ids are realized as duplicate-free lists giving
  one concrete iteration order; set intersection is realized by filtering
  the first operand, which enumerates the same set of ids.
* Regex character classes are modelled on their ASCII core plus the
  explicit CJK range that the source names; this does not affect any
  theorem below, all of which hold for every content string.
-/

set_option autoImplicit false

namespace DocHive

/-! ### Text normalization (search_agent.py, normalize_text, lines 34-56)

The Python function applies, in order: removal of HTML tags
(re.sub "<[^>]+>"), removal of Markdown heading markers
(re.sub "^#+\s+" with MULTILINE), replacement of Markdown links
[text](url) by their text, lowercasing, collapsing whitespace runs to a
single space, dropping every character that is not a word character or
CJK, and a final strip.  Each scanner below consumes at least one
character per step, so running it with fuel equal to the input length is
exact; the fuel-0 branches are unreachable. -/

/-- Python regex class \s, ASCII part: space, tab, newline, carriage
return, vertical tab, form feed. -/
def isPySpace (c : Char) : Bool :=
  c == ' ' || c == '\t' || c == '\n' || c == '\r' || c == '\x0b' || c == '\x0c'

/-- Scan for the closing brace of an HTML tag: the first subsequent
unescaped character that equals the greater-than sign; returns the
remainder after it. -/
def skipToGt : List Char → Option (List Char)
  | [] => none
  | c :: rest => if c = '>' then some rest else skipToGt rest

/-- Match the regex <[^>]+> immediately after an opening less-than sign:
a first character that is not greater-than, then anything up to the next
greater-than sign.  Returns the remainder after the match. -/
def findTagEnd : List Char → Option (List Char)
  | [] => none
  | c :: rest => if c = '>' then none else skipToGt rest

/-- Left-to-right non-overlapping removal of HTML tags, as
re.sub("<[^>]+>", "", text). -/
def stripHtmlTagsF : Nat → List Char → List Char
  | 0, l => l
  | _ + 1, [] => []
  | fuel + 1, c :: rest =>
    if c = '<' then
      match findTagEnd rest with
      | some rest' => stripHtmlTagsF fuel rest'
      | none => c :: stripHtmlTagsF fuel rest
    else c :: stripHtmlTagsF fuel rest

def stripHtmlTags (l : List Char) : List Char := stripHtmlTagsF l.length l

/-- Removal of Markdown heading markers, as
re.sub("^#+\s+", "", text, flags=re.MULTILINE).  The Boolean argument
records whether the current position is a line start (string start or a
position right after a newline); after a removed match the next position
is a line start exactly when the last consumed whitespace character was a
newline. -/
def stripMdHeadersF : Nat → Bool → List Char → List Char
  | 0, _, l => l
  | _ + 1, _, [] => []
  | fuel + 1, atStart, c :: rest =>
    if atStart && c = '#' then
      match (c :: rest).dropWhile (· = '#') with
      | d :: rest2 =>
        if isPySpace d then
          stripMdHeadersF fuel
            (decide (((d :: rest2).takeWhile isPySpace).getLast? = some '\n'))
            ((d :: rest2).dropWhile isPySpace)
        else c :: stripMdHeadersF fuel false rest
      | [] => c :: stripMdHeadersF fuel false rest
    else c :: stripMdHeadersF fuel (c = '\n') rest

def stripMdHeaders (l : List Char) : List Char := stripMdHeadersF l.length true l

/-- Split at the first occurrence of the given character: returns the
(possibly empty) segment before it and the remainder after it, or none if
the character does not occur. -/
def splitAtChar (stop : Char) : List Char → Option (List Char × List Char)
  | [] => none
  | c :: rest =>
    if c = stop then some ([], rest)
    else
      match splitAtChar stop rest with
      | some (seg, r) => some (c :: seg, r)
      | none => none

/-- Match the regex \[([^\]]+)\]\([^)]+\) right after an opening square
bracket: a non-empty run up to the first closing square bracket, an
opening parenthesis, and a non-empty run up to the first closing
parenthesis.  Returns the link text and the remainder. -/
def matchMdLink (l : List Char) : Option (List Char × List Char) :=
  match splitAtChar ']' l with
  | none => none
  | some (text, r1) =>
    if text = [] then none
    else
      match r1 with
      | '(' :: r2 =>
        match splitAtChar ')' r2 with
        | none => none
        | some (url, r3) => if url = [] then none else some (text, r3)
      | _ => none

/-- Replacement of Markdown links by their text, as
re.sub with replacement group 1; replacement text is emitted without
rescanning, matching re.sub semantics. -/
def stripMdLinksF : Nat → List Char → List Char
  | 0, l => l
  | _ + 1, [] => []
  | fuel + 1, c :: rest =>
    if c = '[' then
      match matchMdLink rest with
      | some (text, rest') => text ++ stripMdLinksF fuel rest'
      | none => c :: stripMdLinksF fuel rest
    else c :: stripMdLinksF fuel rest

def stripMdLinks (l : List Char) : List Char := stripMdLinksF l.length l

/-- Collapse every whitespace run to a single space, as
re.sub("\s+", " ", text). -/
def collapseWsF : Nat → List Char → List Char
  | 0, l => l
  | _ + 1, [] => []
  | fuel + 1, c :: rest =>
    if isPySpace c then ' ' :: collapseWsF fuel (rest.dropWhile isPySpace)
    else c :: collapseWsF fuel rest

def collapseWs (l : List Char) : List Char := collapseWsF l.length l

/-- Python regex class \w (ASCII core: letters, digits, underscore) plus
the CJK range 4E00-9FA5 kept by re.sub("[^\w一-龥]+", "", text). -/
def keepChar (c : Char) : Bool :=
  c.isAlphanum || c == '_' ||
    (decide (0x4e00 ≤ c.toNat) && decide (c.toNat ≤ 0x9fa5))

/-- Python str.strip(): drop whitespace from both ends. -/
def pyStrip (l : List Char) : List Char :=
  ((l.dropWhile isPySpace).reverse.dropWhile isPySpace).reverse

/-- search_agent.normalize_text: HTML tags, Markdown headings, Markdown
links, lowercase, whitespace collapse, keep word/CJK characters, strip. -/
def normalize_text (text : String) : String :=
  if text = "" then ""
  else
    String.mk (pyStrip (List.filter keepChar (collapseWs
      (List.map Char.toLower (stripMdLinks (stripMdHeaders
        (stripHtmlTags text.toList)))))))

/-! ### Hashes and similarity (search_agent.py lines 59-144) -/

/-- The hashlib collaborators: compute_strong_hash is
sha256(text).hexdigest(), and compute_simhash hashes each token with md5.
Both are external cryptographic functions consumed only through equality
tests and bit tests, so they enter the model as arbitrary functions. -/
structure HashOracles where
  sha256hex : String → String
  md5int : String → Nat

/-- Python str.split(): split on whitespace runs, dropping empty pieces. -/
def pySplit (s : String) : List String :=
  ((s.toList.splitOnP isPySpace).filter (· ≠ [])).map fun l => String.mk l

/-- search_agent.compute_simhash with hashbits = 64: per-token md5 bits
are summed with weight plus or minus one; the fingerprint sets bit i when
the total is positive. -/
def compute_simhash (md5int : String → Nat) (text : String) : Nat :=
  if text = "" then 0
  else
    let tokens := pySplit text
    if tokens = [] then 0
    else
      let v : List Int := (List.range 64).map fun i =>
        tokens.foldl (fun acc tok =>
          if (md5int tok).testBit i then acc + 1 else acc - 1) 0
      (List.range 64).foldl
        (fun fp i => if 0 < v.getD i 0 then fp ||| (1 <<< i) else fp) 0

/-- Count the set bits of a natural number; fuel bounds the recursion
depth and any fuel at least the value itself is exact. -/
def countOnesF : Nat → Nat → Nat
  | 0, _ => 0
  | fuel + 1, n => if n = 0 then 0 else countOnesF fuel (n / 2) + n % 2

/-- search_agent.hamming_distance: the number of set bits of the xor
(the source clears the lowest set bit per loop iteration, which computes
exactly the population count). -/
def hamming_distance (h1 h2 : Nat) : Nat := countOnesF (h1 ^^^ h2) (h1 ^^^ h2)

/-- search_agent.compute_shingles: the set of all k-character windows, or
the whole text when it is shorter than k. -/
def compute_shingles (text : String) (k : Nat) : Finset String :=
  if text.length < k then {text}
  else
    ((List.range (text.length - k + 1)).map fun i =>
      String.mk ((text.toList.drop i).take k)).toFinset

/-- search_agent.jaccard_similarity on shingle sets. -/
def jaccard_similarity (s1 s2 : Finset String) : ℚ :=
  if s1 = ∅ ∨ s2 = ∅ then 0
  else
    let u := (s1 ∪ s2).card
    if 0 < u then ((s1 ∩ s2).card : ℚ) / (u : ℚ) else 0

/-! ### Document records -/

/-- One candidate document as the dicts flowing through final_results:
document_id, title, content, metadata. -/
structure DocResult where
  document_id : Int
  title : String
  content : String
  metadata : List (String × String)
deriving DecidableEq

/-- One row of the relational documents table as loaded during fusion
(models.Document projected to the fields the pipeline reads). -/
structure DbDocument where
  id : Int
  title : String
  content_text : Option String
  doc_metadata : Option (List (String × String))
deriving DecidableEq

/-- search_agent._convert_docs_to_results: project loaded rows to result
dicts, defaulting missing content and metadata. -/
def convert_docs_to_results (docs : List DbDocument) : List DocResult :=
  docs.map fun d => ⟨d.id, d.title, d.content_text.getD "", d.doc_metadata.getD []⟩

/-! ### Deduplication (search_agent.py lines 147-208 and 1098-1185) -/

/-- The per-candidate feature record built in stage 0 of
deduplicate_documents (the unused original_index bookkeeping field is
omitted; no comparison reads it). -/
structure DocFeat where
  document_id : Int
  title : String
  content : String
  normalized : String
  strong_hash : String
  simhash : Nat
  shingles : Finset String
deriving DecidableEq

/-- Stage 0 of deduplicate_documents: skip candidates with empty content
or empty normalized text, otherwise compute the feature record. -/
def mkDocFeature (o : HashOracles) (doc : DocResult) : Option DocFeat :=
  if doc.content = "" then none
  else
    let normalized := normalize_text doc.content
    if normalized = "" then none
    else
      some ⟨doc.document_id, doc.title, doc.content, normalized,
        o.sha256hex normalized, compute_simhash o.md5int normalized,
        compute_shingles normalized 5⟩

/-- search_agent.should_remove_duplicate.  The four stages: equal strong
hash, simhash Hamming distance at most 3, Jaccard similarity above 0.75,
and for Jaccard in (0.5, 0.75] a difflib SequenceMatcher ratio above
0.80.  The ratio of the external difflib collaborator enters as the
function editSim applied to the two normalized texts in argument order.
Every positive stage removes the candidate with strictly shorter content,
and the second argument on a tie. -/
def should_remove_duplicate (editSim : String → String → ℚ)
    (a b : DocFeat) : Option Int :=
  if a.strong_hash = b.strong_hash then
    some (if a.content.length < b.content.length then a.document_id
          else b.document_id)
  else if hamming_distance a.simhash b.simhash ≤ 3 then
    some (if a.content.length < b.content.length then a.document_id
          else b.document_id)
  else if (3 / 4 : ℚ) < jaccard_similarity a.shingles b.shingles then
    some (if a.content.length < b.content.length then a.document_id
          else b.document_id)
  else if (1 / 2 : ℚ) < jaccard_similarity a.shingles b.shingles
      ∧ jaccard_similarity a.shingles b.shingles ≤ (3 / 4 : ℚ) then
    if (4 / 5 : ℚ) < editSim a.normalized b.normalized then
      some (if a.content.length < b.content.length then a.document_id
            else b.document_id)
    else none
  else none

/-- One iteration of the inner loop body: skip the later candidate when
it is already marked removed, otherwise compare and mark the returned id
if any. -/
def dedupStep (editSim : String → String → ℚ) (fi fj : DocFeat)
    (removed : Finset Int) : Finset Int :=
  if fj.document_id ∈ removed then removed
  else
    match should_remove_duplicate editSim fi fj with
    | some r => insert r removed
    | none => removed

/-- The inner loop of the pairwise pass: compare the fixed candidate
against every later one, skipping those already marked removed at the
moment of comparison, accumulating removed ids.  The source does not
re-check whether the fixed candidate itself became removed inside this
loop. -/
def dedupInner (editSim : String → String → ℚ) (fi : DocFeat) :
    List DocFeat → Finset Int → Finset Int
  | [], removed => removed
  | fj :: rest, removed =>
    dedupInner editSim fi rest (dedupStep editSim fi fj removed)

/-- The outer loop of the pairwise pass: each candidate, unless already
removed when its turn comes, is compared against all later candidates. -/
def dedupOuter (editSim : String → String → ℚ) :
    List DocFeat → Finset Int → Finset Int
  | [], removed => removed
  | fi :: rest, removed =>
    dedupOuter editSim rest
      (if fi.document_id ∈ removed then removed
       else dedupInner editSim fi rest removed)

/-- search_agent.deduplicate_documents: unchanged when at most one
candidate or at most one feature record exists; otherwise drop every
candidate whose id was marked removed by the pairwise pass. -/
def deduplicate_documents (o : HashOracles)
    (editSim : String → String → ℚ) (results : List DocResult) : List DocResult :=
  if results.length ≤ 1 then results
  else if (results.filterMap (mkDocFeature o)).length ≤ 1 then results
  else
    results.filter fun d =>
      d.document_id ∉ dedupOuter editSim (results.filterMap (mkDocFeature o)) ∅

/-! ### Result fusion (search_agent.py merge_retrieval_results,
lines 767-870)

The two recalled id sets are realized as duplicate-free lists carrying
one concrete Python-set iteration order; the intersection is enumerated
by filtering the full-text list, which enumerates exactly the ids of the
Python set intersection. -/

structure FusionOutcome where
  fusion_strategy : String
  merged_document_ids : List Int
deriving DecidableEq

/-- The fusion decision table plus the final truncation of the merged id
list to its first 10 elements. -/
def merge_retrieval_results (es_ids sql_ids : List Int) : FusionOutcome :=
  if es_ids = [] ∧ sql_ids = [] then ⟨"none", []⟩
  else if sql_ids = [] then ⟨"es_only", es_ids.take 10⟩
  else if es_ids = [] then ⟨"sql_only", sql_ids.take 10⟩
  else
    let inter := es_ids.filter (· ∈ sql_ids)
    if 3 ≤ inter.length then ⟨"intersection", inter.take 10⟩
    else if 0 < inter.length then
      ⟨"es_primary", (inter ++ es_ids.filter (· ∉ inter)).take 10⟩
    else ⟨"union", (es_ids ++ sql_ids.filter (· ∉ es_ids)).take 10⟩

/-- Loading the merged documents: one select over the merged ids, then
reordering to match the id list and dropping ids the store does not have
(the source builds a dict keyed by id and keeps merged order). -/
def loadMergedDocuments (dbLookup : Int → Option DbDocument)
    (ids : List Int) : List DbDocument :=
  ids.filterMap dbLookup

/-! ### Refinement filter (search_agent.py refined_filtering,
lines 874-1077) -/

/-- A document-type field row: name and declared type (description feeds
only the LLM prompt). -/
structure FieldDef where
  field_name : String
  field_type : String
deriving DecidableEq

/-- One clause of the refined full-text query, by declared field type:
free text gets a fuzzy match, number an exact term, date a lower-bound
range, anything else a term. -/
inductive EsClause where
  | matchClause (field value : String)
  | termClause (field value : String)
  | rangeGte (field value : String)
deriving DecidableEq

/-- The refined full-text query: per-field must clauses, a filter
restricting document_id to the fused id set, and size 5. -/
structure RefinedQuery where
  must : List EsClause
  filter_document_ids : List Int
  size : Nat
deriving DecidableEq

/-- Clause construction from the LLM conditions: skip empty or UNKNOWN
values, then choose the clause shape from the declared type of the field
(defaulting to text when the field is unknown). -/
def build_must_clauses (fieldMap : List (String × String))
    (conditions : List (String × String)) : List EsClause :=
  conditions.filterMap fun c =>
    if c.2 = "" ∨ c.2 = "UNKNOWN" then none
    else
      let ft := (fieldMap.lookup c.1).getD "text"
      if ft = "text" ∨ ft = "textarea" then some (.matchClause c.1 c.2)
      else if ft = "number" then some (.termClause c.1 c.2)
      else if ft = "date" then some (.rangeGte c.1 c.2)
      else some (.termClause c.1 c.2)

structure RefinedOutcome where
  final_results : List DocResult
  ambiguity_message : Option String
  final_es_query : Option RefinedQuery
deriving DecidableEq

/-- The ambiguity message listing the missing fields, joined by the
Chinese enumeration comma as in the source. -/
def ambiguityMessage (missing : List String) : String :=
  "您的问题似乎有些宽泛。为了更精确地查找,能否提供: " ++
    String.intercalate "、" missing ++ "?"

/-- search_agent.refined_filtering.  Fallthrough cases (no fused
documents, wildcard category, failed or empty type-field lookup, LLM
failure, no conditions) return the fused documents unfiltered; extracted
conditions with no missing fields build the refined query and return its
hits, falling back to the fused documents when the query fails.  The
typeFields parameter models the DocumentType/DocumentTypeField lookup:
an error value is the database failure path, an empty list covers both
the missing-DocumentType and the no-fields paths, which the source
handles identically.  The llm parameter carries the extracted conditions
(an association list, empty when the JSON object was empty) and the
missing-fields list. -/
def refined_filtering
    (merged_documents : List DbDocument)
    (merged_document_ids : List Int)
    (category : String)
    (typeFields : Except Unit (List FieldDef))
    (llm : Except Unit (List (String × String) × List String))
    (esSearch : RefinedQuery → Except Unit (List DocResult)) : RefinedOutcome :=
  if merged_documents = [] then ⟨[], none, none⟩
  else if category = "*" then
    ⟨convert_docs_to_results merged_documents, none, none⟩
  else
    match typeFields with
    | .error _ => ⟨convert_docs_to_results merged_documents, none, none⟩
    | .ok fields =>
      if fields = [] then ⟨convert_docs_to_results merged_documents, none, none⟩
      else
        match llm with
        | .error _ => ⟨convert_docs_to_results merged_documents, none, none⟩
        | .ok (conditions, missing) =>
          if conditions = [] ∧ missing ≠ [] then
            ⟨convert_docs_to_results merged_documents,
              some (ambiguityMessage missing), none⟩
          else if conditions = [] then
            ⟨convert_docs_to_results merged_documents, none, none⟩
          else
            let q : RefinedQuery :=
              ⟨build_must_clauses
                  (fields.map fun f => (f.field_name, f.field_type)) conditions,
                merged_document_ids, 5⟩
            match esSearch q with
            | .error _ =>
              ⟨convert_docs_to_results merged_documents, none, some q⟩
            | .ok hits => ⟨hits, none, some q⟩

/-! ### Relevance filter (search_agent.py filter_documents_by_summary,
lines 1189-1323) -/

/-- One summary row read from the documents table: id, title, optional
stored AI summary. -/
structure SummaryRow where
  id : Int
  title : String
  ai_summary : Option String
deriving DecidableEq

structure FilterOutcome where
  filtered_document_ids : List Int
  filtered_results : List DocResult
deriving DecidableEq

/-- search_agent.filter_documents_by_summary.  At most one candidate, a
database failure, an empty summary list, or an LLM failure all keep every
candidate; an empty relevant-id list empties the result; otherwise keep
the candidates whose id the LLM listed (the id list output is the LLM
list verbatim). -/
def filter_documents_by_summary
    (results : List DocResult)
    (dbFetch : Except Unit (List SummaryRow))
    (llm : Except Unit (List Int)) : FilterOutcome :=
  if results.length ≤ 1 then ⟨results.map (·.document_id), results⟩
  else
    match dbFetch with
    | .error _ => ⟨results.map (·.document_id), results⟩
    | .ok rows =>
      if (rows.map fun r => (r.id, r.title, r.ai_summary.getD "未生成摘要")) = []
      then ⟨results.map (·.document_id), results⟩
      else
        match llm with
        | .error _ => ⟨results.map (·.document_id), results⟩
        | .ok relevant_ids =>
          if relevant_ids = [] then ⟨[], []⟩
          else
            ⟨relevant_ids,
              results.filter fun d => d.document_id ∈ relevant_ids⟩

/-! ### Answer synthesis (search_agent.py generate_answer,
_generate_single_answer, _generate_grouped_answer, lines 1345-1719)

The synthesizer's control flow is modelled as the ordered sequence of
chat_completion invocations it performs; prompt strings and reply texts
do not influence which calls are made (every call site is wrapped in its
own try/except, so a failed call still counts as one invocation). -/

inductive LlmCall where
  /-- the no-documents branch: answer from model knowledge -/
  | directAnswer
  /-- single-pass synthesis over all candidates -/
  | singleAnswer
  /-- per-candidate synthesis in grouped mode (1-based index) -/
  | perDocAnswer (docIndex : Nat)
  /-- the final merge pass of grouped mode -/
  | mergeAnswer
deriving DecidableEq

/-- search_agent.generate_answer: no candidates gives one direct call;
total content length within the configured budget gives the single-pass
call; above the budget every candidate gets one call, then one merge
call. -/
def generate_answer_calls (results : List DocResult)
    (maxContextLength : Nat) : List LlmCall :=
  if results = [] then [.directAnswer]
  else
    let totalLength := (results.map fun d => d.content.length).sum
    if totalLength ≤ maxContextLength then [.singleAnswer]
    else
      ((List.range results.length).map fun i => LlmCall.perDocAnswer (i + 1))
        ++ [.mergeAnswer]

/-! ### Task planner (intent_router.py function_calling_router,
lines 25-230) -/

/-- One step of the LLM execution plan. -/
structure PlanStep where
  step : Nat
  action : String
  tool_name : Option String
  description : String
deriving DecidableEq

/-- One executed tool call (execute_tool_call never raises: every tool
wraps its body in try/except and unknown tools return an error payload,
so tool execution cannot divert the router to its failure path). -/
structure ToolResult where
  step : Nat
  tool_name : Option String
deriving DecidableEq

structure RouterResult where
  execution_plan : List PlanStep
  tool_results : List ToolResult
  need_retrieval : Bool
deriving DecidableEq

/-- The degraded plan used when the LLM call fails or returns no plan:
one document_retrieval step. -/
def default_retrieval_plan : List PlanStep :=
  [⟨1, "document_retrieval", none, "文档检索"⟩]

/-- intent_router.function_calling_router.  The llm parameter is the
extract_json_response outcome: an exception, or the parsed plan with the
reasoning text.  A failure or an empty plan degrades to the default
retrieval plan with need_retrieval true; otherwise every tool_call step
is executed in plan order and need_retrieval holds exactly when some step
is a document_retrieval. -/
def function_calling_router
    (llm : Except Unit (List PlanStep × String)) : RouterResult :=
  match llm with
  | .error _ => ⟨default_retrieval_plan, [], true⟩
  | .ok (plan, _) =>
    if plan = [] then ⟨default_retrieval_plan, [], true⟩
    else
      ⟨plan,
        (plan.filter fun s => s.action == "tool_call").map fun s =>
          ⟨s.step, s.tool_name⟩,
        plan.any fun s => s.action == "document_retrieval"⟩

/-! ### Session store and clarification resume (search_agent.py line 28,
workflow wiring lines 1782-1846, qa.py lines 145-558 and 561-697) -/

/-- The compiled graph's entry point, from
workflow.set_entry_point("intent_routing"): every invocation of the
compiled app, including the re-invocation performed by the clarification
endpoint, begins at this node. -/
def workflow_entry_point : String := "intent_routing"

/-- The module-level graph_state_storage dict, keyed by session id; the
stored state type is a parameter. -/
def GraphStateStorage (σ : Type) := List (String × σ)

/-- Its initializer: the empty dict. -/
def graph_state_storage_init (σ : Type) : GraphStateStorage σ := []

/-- The ambiguity branch of the ask endpoint's event generator
(qa.py lines 492-499): it yields the terminal ambiguity event and
returns.  No statement of the ask flow writes to graph_state_storage
(the storage is only read and deleted, in the clarify endpoint), so the
storage is returned unchanged. -/
def ask_agent_pause_storage (σ : Type) (storage : GraphStateStorage σ)
    (_session_id : String) (_paused_state : σ) : GraphStateStorage σ :=
  storage

inductive ClarifyStart where
  /-- the stored state was found and the graph re-invoked from the given
  entry node -/
  | resumedAt (node : String)
  /-- the session id was absent: HTTP 400, the generator yields an error
  event -/
  | invalidSession
deriving DecidableEq

/-- qa.clarify_question_agent, reduced to its control decision: a missing
session id raises the invalid-session error; a present one re-invokes the
compiled graph via ainvoke, which starts at the graph's entry point. -/
def clarify_question_agent_start (σ : Type) (storage : GraphStateStorage σ)
    (session_id : String) : ClarifyStart :=
  match List.lookup session_id storage with
  | none => .invalidSession
  | some _ => .resumedAt workflow_entry_point

/-! ### Concrete evaluation instances

Concrete stand-ins for the external collaborators, used only to evaluate
the model on concrete inputs (the theorems quantify over arbitrary
oracles): the identity function as hex digest, the string length as md5
value, and the constant zero ratio. -/

def testOracles : HashOracles := ⟨fun s => s, fun s => s.length⟩

def testEditSim : String → String → ℚ := fun _ _ => 0

/-- Two candidates with byte-identical content (hence equal raw length
and equal normalized text). -/
def tieDocA : DocResult := ⟨1, "a", "abc", []⟩

def tieDocB : DocResult := ⟨2, "b", "abc", []⟩

/-- Three candidates with byte-identical content. -/
def dupDoc1 : DocResult := ⟨1, "x", "abc", []⟩

def dupDoc2 : DocResult := ⟨2, "y", "abc", []⟩

def dupDoc3 : DocResult := ⟨3, "z", "abc", []⟩

/-! ## Theorems -/

/-! ### Deduplication-pass lemmas -/

/-- Every positive stage of should_remove_duplicate returns the id of
the candidate with strictly shorter content, or the second candidate's
id on a tie. -/
theorem should_remove_eq_shorter (editSim : String → String → ℚ)
    (a b : DocFeat) (r : Int)
    (h : should_remove_duplicate editSim a b = some r) :
    r = if a.content.length < b.content.length then a.document_id
        else b.document_id := by
  unfold should_remove_duplicate at h
  by_cases h1 : a.strong_hash = b.strong_hash
  · rw [if_pos h1] at h
    injection h with h
    exact h.symm
  · rw [if_neg h1] at h
    by_cases h2 : hamming_distance a.simhash b.simhash ≤ 3
    · rw [if_pos h2] at h
      injection h with h
      exact h.symm
    · rw [if_neg h2] at h
      by_cases h3 : (3 / 4 : ℚ) < jaccard_similarity a.shingles b.shingles
      · rw [if_pos h3] at h
        injection h with h
        exact h.symm
      · rw [if_neg h3] at h
        by_cases h4 : (1 / 2 : ℚ) < jaccard_similarity a.shingles b.shingles
            ∧ jaccard_similarity a.shingles b.shingles ≤ (3 / 4 : ℚ)
        · rw [if_pos h4] at h
          by_cases h5 : (4 / 5 : ℚ) < editSim a.normalized b.normalized
          · rw [if_pos h5] at h
            injection h with h
            exact h.symm
          · rw [if_neg h5] at h
            exact Option.noConfusion h
        · rw [if_neg h4] at h
          exact Option.noConfusion h

/-- The removed id of a comparison is one of the two compared ids. -/
theorem should_remove_mem (editSim : String → String → ℚ)
    (a b : DocFeat) (r : Int)
    (h : should_remove_duplicate editSim a b = some r) :
    r = a.document_id ∨ r = b.document_id := by
  rw [should_remove_eq_shorter editSim a b r h]
  split
  · exact Or.inl rfl
  · exact Or.inr rfl

theorem dedupStep_mono (editSim : String → String → ℚ) (fi fj : DocFeat)
    (removed : Finset Int) : removed ⊆ dedupStep editSim fi fj removed := by
  unfold dedupStep
  split
  · exact Finset.Subset.refl _
  · split
    · exact Finset.subset_insert _ _
    · exact Finset.Subset.refl _

theorem dedupInner_mono (editSim : String → String → ℚ) (fi : DocFeat) :
    ∀ (l : List DocFeat) (removed : Finset Int),
      removed ⊆ dedupInner editSim fi l removed := by
  intro l
  induction l with
  | nil => intro removed; exact Finset.Subset.refl _
  | cons fj rest ih =>
    intro removed
    exact Finset.Subset.trans (dedupStep_mono editSim fi fj removed) (ih _)

theorem dedupOuter_mono (editSim : String → String → ℚ) :
    ∀ (l : List DocFeat) (removed : Finset Int),
      removed ⊆ dedupOuter editSim l removed := by
  intro l
  induction l with
  | nil => intro removed; exact Finset.Subset.refl _
  | cons fi rest ih =>
    intro removed
    refine Finset.Subset.trans ?_ (ih _)
    by_cases hi : fi.document_id ∈ removed
    · rw [if_pos hi]
    · rw [if_neg hi]
      exact dedupInner_mono editSim fi rest removed

/-- Every later candidate present in the inner loop's list is resolved:
either its id ended up removed, or the comparison against the fixed
candidate returned none, or the returned id ended up removed. -/
theorem dedupInner_resolved (editSim : String → String → ℚ) (fi : DocFeat) :
    ∀ (l : List DocFeat) (removed : Finset Int) (fj : DocFeat), fj ∈ l →
      fj.document_id ∈ dedupInner editSim fi l removed
      ∨ should_remove_duplicate editSim fi fj = none
      ∨ ∃ r, should_remove_duplicate editSim fi fj = some r
          ∧ r ∈ dedupInner editSim fi l removed := by
  intro l
  induction l with
  | nil => intro removed fj h; cases h
  | cons fk rest ih =>
    intro removed fj hmem
    rcases List.mem_cons.mp hmem with heq | htail
    · subst heq
      by_cases hj : fj.document_id ∈ removed
      · left
        exact dedupInner_mono editSim fi (fj :: rest) removed hj
      · cases hsr : should_remove_duplicate editSim fi fj with
        | none => exact Or.inr (Or.inl rfl)
        | some r =>
          refine Or.inr (Or.inr ⟨r, rfl, ?_⟩)
          have hstep : dedupStep editSim fi fj removed = insert r removed := by
            unfold dedupStep
            rw [if_neg hj, hsr]
          show r ∈ dedupInner editSim fi rest (dedupStep editSim fi fj removed)
          rw [hstep]
          exact dedupInner_mono editSim fi rest _ (Finset.mem_insert_self r _)
    · exact ih (dedupStep editSim fi fk removed) fj htail

/-- Every ordered pair of the outer loop's list is resolved: one of the
two ids ended up removed, or their comparison returned none. -/
theorem dedupOuter_pairwise (editSim : String → String → ℚ) :
    ∀ (l : List DocFeat) (removed : Finset Int),
      l.Pairwise (fun fa fb =>
        fa.document_id ∈ dedupOuter editSim l removed
        ∨ fb.document_id ∈ dedupOuter editSim l removed
        ∨ should_remove_duplicate editSim fa fb = none) := by
  intro l
  induction l with
  | nil => intro removed; exact List.Pairwise.nil
  | cons fi rest ih =>
    intro removed
    refine List.Pairwise.cons ?_ ?_
    · intro fb hb
      by_cases hi : fi.document_id ∈ removed
      · left
        exact dedupOuter_mono editSim (fi :: rest) removed hi
      · have hsub : dedupInner editSim fi rest removed
            ⊆ dedupOuter editSim (fi :: rest) removed := by
          show dedupInner editSim fi rest removed
            ⊆ dedupOuter editSim rest
                (if fi.document_id ∈ removed then removed
                 else dedupInner editSim fi rest removed)
          rw [if_neg hi]
          exact dedupOuter_mono editSim rest _
        rcases dedupInner_resolved editSim fi rest removed fb hb with
          h | h | ⟨r, hr, hmem⟩
        · exact Or.inr (Or.inl (hsub h))
        · exact Or.inr (Or.inr h)
        · rcases should_remove_mem editSim fi fb r hr with rfl | rfl
          · exact Or.inl (hsub hmem)
          · exact Or.inr (Or.inl (hsub hmem))
    · exact ih (if fi.document_id ∈ removed then removed
        else dedupInner editSim fi rest removed)

/-- Survivors of a pass compare to none pairwise. -/
theorem dedup_survivors_pairwise_none (editSim : String → String → ℚ)
    (l : List DocFeat) :
    l.Pairwise (fun fa fb =>
      fa.document_id ∉ dedupOuter editSim l ∅ →
      fb.document_id ∉ dedupOuter editSim l ∅ →
      should_remove_duplicate editSim fa fb = none) := by
  refine (dedupOuter_pairwise editSim l ∅).imp ?_
  intro a b h ha hb
  rcases h with h | h | h
  · exact absurd h ha
  · exact absurd h hb
  · exact h

/-- An inner loop whose comparisons all return none marks nothing. -/
theorem dedupInner_none (editSim : String → String → ℚ) (fi : DocFeat) :
    ∀ (l : List DocFeat) (removed : Finset Int),
      (∀ fj ∈ l, should_remove_duplicate editSim fi fj = none) →
      dedupInner editSim fi l removed = removed := by
  intro l
  induction l with
  | nil => intro removed _; rfl
  | cons fj rest ih =>
    intro removed h
    have hstep : dedupStep editSim fi fj removed = removed := by
      unfold dedupStep
      rw [h fj (List.mem_cons_self fj rest)]
      split <;> rfl
    show dedupInner editSim fi rest (dedupStep editSim fi fj removed) = removed
    rw [hstep]
    exact ih removed fun fk hk => h fk (List.mem_cons_of_mem fj hk)

/-- An outer loop whose comparisons all return none marks nothing. -/
theorem dedupOuter_none (editSim : String → String → ℚ) :
    ∀ (l : List DocFeat) (removed : Finset Int),
      l.Pairwise (fun fa fb => should_remove_duplicate editSim fa fb = none) →
      dedupOuter editSim l removed = removed := by
  intro l
  induction l with
  | nil => intro removed _; rfl
  | cons fi rest ih =>
    intro removed h
    rcases List.pairwise_cons.mp h with ⟨hhead, htail⟩
    have hinner : (if fi.document_id ∈ removed then removed
        else dedupInner editSim fi rest removed) = removed := by
      split
      · rfl
      · exact dedupInner_none editSim fi rest removed hhead
    show dedupOuter editSim rest
        (if fi.document_id ∈ removed then removed
         else dedupInner editSim fi rest removed) = removed
    rw [hinner]
    exact ih removed htail

theorem dedupStep_ids (editSim : String → String → ℚ) (fi fj : DocFeat)
    (removed : Finset Int) (x : Int)
    (hx : x ∈ dedupStep editSim fi fj removed) :
    x ∈ removed ∨ x = fi.document_id ∨ x = fj.document_id := by
  unfold dedupStep at hx
  split at hx
  · exact Or.inl hx
  · revert hx
    split
    · intro hx
      rcases Finset.mem_insert.mp hx with h | h
      · subst h
        rcases should_remove_mem editSim fi fj _ (by assumption) with h | h
        · exact Or.inr (Or.inl h)
        · exact Or.inr (Or.inr h)
      · exact Or.inl h
    · intro hx
      exact Or.inl hx

theorem dedupInner_ids (editSim : String → String → ℚ) (fi : DocFeat) :
    ∀ (l : List DocFeat) (removed : Finset Int) (x : Int),
      x ∈ dedupInner editSim fi l removed →
      x ∈ removed ∨ x = fi.document_id ∨ ∃ fj ∈ l, x = fj.document_id := by
  intro l
  induction l with
  | nil => intro removed x hx; exact Or.inl hx
  | cons fj rest ih =>
    intro removed x hx
    rcases ih (dedupStep editSim fi fj removed) x hx with h | h | ⟨fk, hk, hxk⟩
    · rcases dedupStep_ids editSim fi fj removed x h with h' | h' | h'
      · exact Or.inl h'
      · exact Or.inr (Or.inl h')
      · exact Or.inr (Or.inr ⟨fj, List.mem_cons_self fj rest, h'⟩)
    · exact Or.inr (Or.inl h)
    · exact Or.inr (Or.inr ⟨fk, List.mem_cons_of_mem fj hk, hxk⟩)

/-- Every id the pass marks removed is the id of some compared feature
record. -/
theorem dedupOuter_ids (editSim : String → String → ℚ) :
    ∀ (l : List DocFeat) (removed : Finset Int) (x : Int),
      x ∈ dedupOuter editSim l removed →
      x ∈ removed ∨ ∃ f ∈ l, x = f.document_id := by
  intro l
  induction l with
  | nil => intro removed x hx; exact Or.inl hx
  | cons fi rest ih =>
    intro removed x hx
    rcases ih _ x hx with h | ⟨f, hf, hxf⟩
    · by_cases hi : fi.document_id ∈ removed
      · rw [if_pos hi] at h
        exact Or.inl h
      · rw [if_neg hi] at h
        rcases dedupInner_ids editSim fi rest removed x h with
          h' | h' | ⟨fj, hj, hxj⟩
        · exact Or.inl h'
        · exact Or.inr ⟨fi, List.mem_cons_self fi rest, h'⟩
        · exact Or.inr ⟨fj, List.mem_cons_of_mem fi hj, hxj⟩
    · exact Or.inr ⟨f, List.mem_cons_of_mem fi hf, hxf⟩

/-- A feature record keeps the candidate's id, content and normalized
text, and exists only for candidates with non-empty content and
non-empty normalized text. -/
theorem mkDocFeature_some (o : HashOracles) (doc : DocResult) (ft : DocFeat)
    (h : mkDocFeature o doc = some ft) :
    ft.document_id = doc.document_id ∧ ft.content = doc.content
    ∧ ft.normalized = normalize_text doc.content
    ∧ ft.strong_hash = o.sha256hex (normalize_text doc.content)
    ∧ doc.content ≠ "" ∧ normalize_text doc.content ≠ "" := by
  unfold mkDocFeature at h
  by_cases h1 : doc.content = ""
  · rw [if_pos h1] at h
    cases h
  · rw [if_neg h1] at h
    by_cases h2 : normalize_text doc.content = ""
    · simp only [h2, if_pos rfl] at h
      cases h
    · rw [if_neg h2] at h
      injection h with h
      subst h
      exact ⟨rfl, rfl, rfl, rfl, h1, h2⟩

/-- filterMap commutes with filtering by a predicate the partial map
preserves. -/
theorem filterMap_filter_comm {α β : Type} (f : α → Option β)
    (p : α → Bool) (q : β → Bool)
    (hpq : ∀ a b, f a = some b → p a = q b) :
    ∀ l : List α, (l.filter p).filterMap f = (l.filterMap f).filter q := by
  intro l
  induction l with
  | nil => rfl
  | cons a t ih =>
    cases hfa : f a with
    | none =>
      by_cases hp : p a = true
      · simp [List.filter_cons, hp, List.filterMap_cons, hfa, ih]
      · have hp' : p a = false := by
          cases hpa : p a
          · rfl
          · exact absurd hpa hp
        simp [List.filter_cons, hp', List.filterMap_cons, hfa, ih]
    | some b =>
      have hq := hpq a b hfa
      by_cases hp : p a = true
      · have hqb : q b = true := by rw [← hq]; exact hp
        simp [List.filter_cons, hp, List.filterMap_cons, hfa, hqb, ih]
      · have hp' : p a = false := by
          cases hpa : p a
          · rfl
          · exact absurd hpa hp
        have hqb : q b = false := by rw [← hq]; exact hp'
        simp [List.filter_cons, hp', List.filterMap_cons, hfa, hqb, ih]

/-- A candidate list whose feature records pairwise compare to none is a
fixed point of the deduplicator. -/
theorem dedup_fixed_of_pairwise_none (o : HashOracles)
    (editSim : String → String → ℚ) (out : List DocResult)
    (hpair : (out.filterMap (mkDocFeature o)).Pairwise
      (fun fa fb => should_remove_duplicate editSim fa fb = none)) :
    deduplicate_documents o editSim out = out := by
  unfold deduplicate_documents
  by_cases h1 : out.length ≤ 1
  · rw [if_pos h1]
  · rw [if_neg h1]
    by_cases h2 : (out.filterMap (mkDocFeature o)).length ≤ 1
    · rw [if_pos h2]
    · rw [if_neg h2]
      rw [dedupOuter_none editSim _ ∅ hpair]
      refine List.filter_eq_self.mpr ?_
      intro a _
      simp

/-- C4 (confirmed): the deduplicator is idempotent: a second run on its
own output returns the output unchanged (as a list, hence as a set), for
every candidate list and all hash and edit-similarity collaborators. -/
theorem deduplicate_documents_idempotent (o : HashOracles)
    (editSim : String → String → ℚ) (results : List DocResult) :
    deduplicate_documents o editSim (deduplicate_documents o editSim results)
      = deduplicate_documents o editSim results := by
  by_cases h1 : results.length ≤ 1
  · have hr : deduplicate_documents o editSim results = results := by
      unfold deduplicate_documents
      rw [if_pos h1]
    rw [hr]
    exact hr
  · by_cases h2 : (results.filterMap (mkDocFeature o)).length ≤ 1
    · have hr : deduplicate_documents o editSim results = results := by
        unfold deduplicate_documents
        rw [if_neg h1, if_pos h2]
      rw [hr]
      exact hr
    · have hstep : deduplicate_documents o editSim results
        = results.filter fun d =>
            d.document_id ∉ dedupOuter editSim
              (results.filterMap (mkDocFeature o)) ∅ := by
        unfold deduplicate_documents
        rw [if_neg h1, if_neg h2]
      rw [hstep]
      apply dedup_fixed_of_pairwise_none
      have hcomm : (results.filter fun d =>
            d.document_id ∉ dedupOuter editSim
              (results.filterMap (mkDocFeature o)) ∅).filterMap (mkDocFeature o)
          = (results.filterMap (mkDocFeature o)).filter fun ft =>
              ft.document_id ∉ dedupOuter editSim
                (results.filterMap (mkDocFeature o)) ∅ := by
        refine filterMap_filter_comm (mkDocFeature o) _ _ ?_ results
        intro a b hab
        rw [(mkDocFeature_some o a b hab).1]
      rw [hcomm]
      have hsurv := dedup_survivors_pairwise_none editSim
        (results.filterMap (mkDocFeature o))
      have hfilt := hsurv.sublist (List.filter_sublist
        (l := results.filterMap (mkDocFeature o))
        (p := fun ft => ft.document_id ∉ dedupOuter editSim
          (results.filterMap (mkDocFeature o)) ∅))
      refine hfilt.imp_of_mem ?_
      intro a b ha hb hcond
      have ha' := of_decide_eq_true (List.mem_filter.mp ha).2
      have hb' := of_decide_eq_true (List.mem_filter.mp hb).2
      exact hcond ha' hb'

/-- C10 (confirmed): a candidate with empty content or empty normalized
text is skipped by feature extraction and, provided no other candidate in
the list carries its document id with real content, its id is never
marked removed, so the candidate survives deduplication unchanged — also
when another candidate's content is byte-identical to it (such a
candidate is equally featureless). -/
theorem dedup_keeps_contentless (o : HashOracles)
    (editSim : String → String → ℚ) (results : List DocResult) (d : DocResult)
    (hmem : d ∈ results)
    (_hempty : d.content = "" ∨ normalize_text d.content = "")
    (hshared : ∀ e ∈ results, e.document_id = d.document_id →
        e.content = "" ∨ normalize_text e.content = "") :
    d ∈ deduplicate_documents o editSim results := by
  unfold deduplicate_documents
  by_cases h1 : results.length ≤ 1
  · rw [if_pos h1]
    exact hmem
  · rw [if_neg h1]
    by_cases h2 : (results.filterMap (mkDocFeature o)).length ≤ 1
    · rw [if_pos h2]
      exact hmem
    · rw [if_neg h2]
      refine List.mem_filter.mpr ⟨hmem, ?_⟩
      rw [decide_eq_true_eq]
      intro hd
      rcases dedupOuter_ids editSim (results.filterMap (mkDocFeature o)) ∅
        d.document_id hd with h | ⟨f, hf, hfd⟩
      · exact absurd h (Finset.not_mem_empty _)
      · rcases List.mem_filterMap.mp hf with ⟨e, he, hfe⟩
        have hprops := mkDocFeature_some o e f hfe
        have hed : e.document_id = d.document_id := by
          rw [← hprops.1, ← hfd]
        rcases hshared e he hed with hc | hn
        · exact hprops.2.2.2.2.1 hc
        · exact hprops.2.2.2.2.2 hn

/-- C10 witness: an empty-content candidate survives a run in which the
two identical non-empty candidates lose one of their pair. -/
theorem dedup_keeps_contentless_witness :
    (⟨4, "e", "", []⟩ : DocResult) ∈ [dupDoc1, dupDoc2, ⟨4, "e", "", []⟩]
    ∧ ((⟨4, "e", "", []⟩ : DocResult).content = ""
        ∨ normalize_text (⟨4, "e", "", []⟩ : DocResult).content = "")
    ∧ (∀ e ∈ [dupDoc1, dupDoc2, (⟨4, "e", "", []⟩ : DocResult)],
        e.document_id = (⟨4, "e", "", []⟩ : DocResult).document_id →
        e.content = "" ∨ normalize_text e.content = "")
    ∧ (⟨4, "e", "", []⟩ : DocResult)
        ∈ deduplicate_documents testOracles testEditSim
            [dupDoc1, dupDoc2, ⟨4, "e", "", []⟩] :=
  ⟨by decide, by decide, by decide,
    dedup_keeps_contentless testOracles testEditSim
      [dupDoc1, dupDoc2, ⟨4, "e", "", []⟩] ⟨4, "e", "", []⟩
      (by decide) (by decide) (by decide)⟩

/-- C1 (amended): the fusion decision table.  Both channels empty gives
strategy none with the empty result; exactly one non-empty channel gives
strategy es_only or sql_only with that channel's ids; both non-empty with
an intersection of at least 3 ids gives strategy intersection with the
intersection; a non-empty intersection below 3 gives strategy es_primary
with the intersection ids first and the remaining full-text ids after;
an empty intersection gives strategy union with all full-text ids first
and the structured-only ids after.  Each result list is the stated list
truncated to its first 10 ids.  The last two conjuncts identify the
enumerated intersection with the set intersection of the two channels. -/
theorem merge_decision_table (es_ids sql_ids : List Int)
    (hes : es_ids.Nodup) :
    (es_ids = [] ∧ sql_ids = [] →
      merge_retrieval_results es_ids sql_ids = ⟨"none", []⟩)
    ∧ (es_ids ≠ [] → sql_ids = [] →
      (merge_retrieval_results es_ids sql_ids).fusion_strategy = "es_only"
      ∧ (merge_retrieval_results es_ids sql_ids).merged_document_ids
          = es_ids.take 10)
    ∧ (es_ids = [] → sql_ids ≠ [] →
      (merge_retrieval_results es_ids sql_ids).fusion_strategy = "sql_only"
      ∧ (merge_retrieval_results es_ids sql_ids).merged_document_ids
          = sql_ids.take 10)
    ∧ (es_ids ≠ [] → sql_ids ≠ [] →
        3 ≤ (es_ids.toFinset ∩ sql_ids.toFinset).card →
      (merge_retrieval_results es_ids sql_ids).fusion_strategy = "intersection"
      ∧ (merge_retrieval_results es_ids sql_ids).merged_document_ids
          = (es_ids.filter (· ∈ sql_ids)).take 10)
    ∧ (es_ids ≠ [] → sql_ids ≠ [] →
        0 < (es_ids.toFinset ∩ sql_ids.toFinset).card →
        (es_ids.toFinset ∩ sql_ids.toFinset).card < 3 →
      (merge_retrieval_results es_ids sql_ids).fusion_strategy = "es_primary"
      ∧ (merge_retrieval_results es_ids sql_ids).merged_document_ids
          = (es_ids.filter (· ∈ sql_ids)
              ++ es_ids.filter (· ∉ es_ids.filter (· ∈ sql_ids))).take 10)
    ∧ (es_ids ≠ [] → sql_ids ≠ [] →
        es_ids.toFinset ∩ sql_ids.toFinset = ∅ →
      (merge_retrieval_results es_ids sql_ids).fusion_strategy = "union"
      ∧ (merge_retrieval_results es_ids sql_ids).merged_document_ids
          = (es_ids ++ sql_ids.filter (· ∉ es_ids)).take 10)
    ∧ (es_ids.filter (· ∈ sql_ids)).toFinset
        = es_ids.toFinset ∩ sql_ids.toFinset
    ∧ (es_ids.filter (· ∈ sql_ids)).length
        = (es_ids.toFinset ∩ sql_ids.toFinset).card := by
  have hsetEq : (es_ids.filter (· ∈ sql_ids)).toFinset
      = es_ids.toFinset ∩ sql_ids.toFinset := by
    ext a
    simp [List.mem_filter]
  have hcard : (es_ids.filter (· ∈ sql_ids)).length
      = (es_ids.toFinset ∩ sql_ids.toFinset).card := by
    rw [← hsetEq, List.toFinset_card_of_nodup (hes.filter _)]
  refine ⟨?_, ?_, ?_, ?_, ?_, ?_, hsetEq, hcard⟩
  · rintro ⟨h1, h2⟩
    simp [merge_retrieval_results, h1, h2]
  · intro h1 h2
    simp [merge_retrieval_results, h1, h2]
  · intro h1 h2
    simp [merge_retrieval_results, h1, h2]
  · intro h1 h2 h3
    rw [← hcard] at h3
    simp [merge_retrieval_results, h1, h2, h3]
  · intro h1 h2 h3 h4
    rw [← hcard] at h3 h4
    have h5 : ¬ 3 ≤ (es_ids.filter (· ∈ sql_ids)).length := by omega
    simp [merge_retrieval_results, h1, h2, h3, h5]
  · intro h1 h2 h3
    have h4 : (es_ids.filter (· ∈ sql_ids)).length = 0 := by
      rw [hcard, h3]
      simp
    have h5 : ¬ 3 ≤ (es_ids.filter (· ∈ sql_ids)).length := by omega
    have h6 : ¬ 0 < (es_ids.filter (· ∈ sql_ids)).length := by omega
    simp [merge_retrieval_results, h1, h2, h5, h6]

/-- C1 witness: the decision table applied to a concrete pair of
channels (full-text ids 1..4, structured ids 3..6, intersection of
size 2: strategy es_primary). -/
theorem merge_decision_table_witness :
    ([1, 2, 3, 4] : List Int).Nodup
    ∧ (([1, 2, 3, 4] : List Int) ≠ []
      ∧ ([3, 4, 5, 6] : List Int) ≠ []
      ∧ 0 < (([1, 2, 3, 4] : List Int).toFinset
          ∩ ([3, 4, 5, 6] : List Int).toFinset).card
      ∧ (([1, 2, 3, 4] : List Int).toFinset
          ∩ ([3, 4, 5, 6] : List Int).toFinset).card < 3)
    ∧ (merge_retrieval_results [1, 2, 3, 4] [3, 4, 5, 6]).fusion_strategy
        = "es_primary" :=
  ⟨by decide, ⟨by decide, by decide, by decide, by decide⟩,
    ((merge_decision_table [1, 2, 3, 4] [3, 4, 5, 6]
      (by decide)).2.2.2.2.1 (by decide) (by decide) (by decide)
      (by decide)).1⟩

/-- C1 counterexample to the claim as stated: with eleven full-text ids
and no structured ids the strategy is es_only but the fused result is the
first ten ids only, not the full-text set (id 11 is dropped), because the
source truncates the merged id list to 10. -/
theorem merge_truncation_counterexample :
    (merge_retrieval_results [1, 2, 3, 4, 5, 6, 7, 8, 9, 10, 11]
        ([] : List Int)).fusion_strategy = "es_only"
    ∧ (11 : Int) ∈ ([1, 2, 3, 4, 5, 6, 7, 8, 9, 10, 11] : List Int)
    ∧ (11 : Int) ∉ (merge_retrieval_results [1, 2, 3, 4, 5, 6, 7, 8, 9, 10, 11]
        ([] : List Int)).merged_document_ids
    ∧ (merge_retrieval_results [1, 2, 3, 4, 5, 6, 7, 8, 9, 10, 11]
        ([] : List Int)).merged_document_ids.length = 10 := by
  decide

/-- C2 (code_bug): the ask flow's ambiguity branch leaves the session
store unchanged, so the paused state never survives in it and a
subsequent clarification call with the session id hits the
invalid-session error; and even a successful lookup would re-invoke the
compiled graph at its entry point intent_routing (planning), never at
enhance_query. -/
theorem clarify_after_pause_bug (σ : Type) (sid : String) (paused : σ) :
    clarify_question_agent_start σ
        (ask_agent_pause_storage σ (graph_state_storage_init σ) sid paused) sid
      = ClarifyStart.invalidSession
    ∧ workflow_entry_point ≠ "enhance_query"
    ∧ (∀ (storage : GraphStateStorage σ) (s : String),
        clarify_question_agent_start σ storage s
          ≠ ClarifyStart.resumedAt "enhance_query") := by
  refine ⟨rfl, by decide, ?_⟩
  intro storage s
  unfold clarify_question_agent_start
  cases List.lookup s storage with
  | none => simp
  | some st =>
    simp [workflow_entry_point]

/-- C3 (amended): for a duplicate-classified pair whose raw contents have
different lengths, the comparison is symmetric (given the external edit
ratio is evaluated symmetrically on the pair's normalized texts, as the
three hash stages are) and removes exactly the shorter-content document;
on equal lengths every positive stage removes the second document of the
pair, so there the order decides (see the counterexample). -/
theorem should_remove_shorter_and_symmetric (editSim : String → String → ℚ)
    (fa fb : DocFeat)
    (hsym : editSim fa.normalized fb.normalized
      = editSim fb.normalized fa.normalized)
    (hlen : fa.content.length ≠ fb.content.length) :
    should_remove_duplicate editSim fa fb
      = should_remove_duplicate editSim fb fa
    ∧ ∀ r, should_remove_duplicate editSim fa fb = some r →
        (r = fa.document_id ∧ fa.content.length < fb.content.length)
        ∨ (r = fb.document_id ∧ fb.content.length < fa.content.length) := by
  have hham : hamming_distance fb.simhash fa.simhash
      = hamming_distance fa.simhash fb.simhash := by
    unfold hamming_distance
    rw [Nat.xor_comm]
  have hjac : jaccard_similarity fb.shingles fa.shingles
      = jaccard_similarity fa.shingles fb.shingles := by
    by_cases h1 : fa.shingles = ∅
    · simp [jaccard_similarity, h1]
    · by_cases h2 : fb.shingles = ∅
      · simp [jaccard_similarity, h1, h2]
      · have hu : fb.shingles ∪ fa.shingles = fa.shingles ∪ fb.shingles :=
          Finset.union_comm _ _
        have hi : fb.shingles ∩ fa.shingles = fa.shingles ∩ fb.shingles :=
          Finset.inter_comm _ _
        simp [jaccard_similarity, h1, h2, hu, hi]
  have hIf : (if fb.content.length < fa.content.length then fb.document_id
        else fa.document_id)
      = if fa.content.length < fb.content.length then fa.document_id
        else fb.document_id := by
    rcases Nat.lt_or_ge fa.content.length fb.content.length with h | h
    · have h' : ¬ fb.content.length < fa.content.length := by omega
      rw [if_neg h', if_pos h]
    · have h' : fb.content.length < fa.content.length := by omega
      have h'' : ¬ fa.content.length < fb.content.length := by omega
      rw [if_pos h', if_neg h'']
  constructor
  · unfold should_remove_duplicate
    rw [hham, hjac, ← hsym]
    by_cases hh : fa.strong_hash = fb.strong_hash
    · rw [if_pos hh, if_pos hh.symm, hIf]
    · have hh' : ¬ fb.strong_hash = fa.strong_hash := fun hx => hh hx.symm
      rw [if_neg hh, if_neg hh']
      by_cases h2 : hamming_distance fa.simhash fb.simhash ≤ 3
      · rw [if_pos h2, if_pos h2, hIf]
      · rw [if_neg h2, if_neg h2]
        by_cases h3 : (3 / 4 : ℚ) < jaccard_similarity fa.shingles fb.shingles
        · rw [if_pos h3, if_pos h3, hIf]
        · rw [if_neg h3, if_neg h3]
          by_cases h4 : (1 / 2 : ℚ) < jaccard_similarity fa.shingles fb.shingles
              ∧ jaccard_similarity fa.shingles fb.shingles ≤ (3 / 4 : ℚ)
          · rw [if_pos h4, if_pos h4]
            by_cases h5 : (4 / 5 : ℚ) < editSim fa.normalized fb.normalized
            · rw [if_pos h5, if_pos h5, hIf]
            · rw [if_neg h5, if_neg h5]
          · rw [if_neg h4, if_neg h4]
  · intro r hr
    have heq := should_remove_eq_shorter editSim fa fb r hr
    by_cases hlt : fa.content.length < fb.content.length
    · left
      rw [heq, if_pos hlt]
      exact ⟨rfl, hlt⟩
    · right
      have h' : fb.content.length < fa.content.length := by omega
      rw [heq, if_neg hlt]
      exact ⟨rfl, h'⟩

/-- C3 witness: two feature records with equal strong hash and contents
of lengths 2 and 4: swapping the comparison keeps the same outcome. -/
theorem should_remove_shorter_and_symmetric_witness :
    testEditSim (DocFeat.normalized ⟨1, "", "aa", "aa", "h", 0, ∅⟩)
        (DocFeat.normalized ⟨2, "", "aaaa", "aaaa", "h", 0, ∅⟩)
      = testEditSim (DocFeat.normalized ⟨2, "", "aaaa", "aaaa", "h", 0, ∅⟩)
        (DocFeat.normalized ⟨1, "", "aa", "aa", "h", 0, ∅⟩)
    ∧ (DocFeat.content ⟨1, "", "aa", "aa", "h", 0, ∅⟩).length
      ≠ (DocFeat.content ⟨2, "", "aaaa", "aaaa", "h", 0, ∅⟩).length
    ∧ should_remove_duplicate testEditSim ⟨1, "", "aa", "aa", "h", 0, ∅⟩
        ⟨2, "", "aaaa", "aaaa", "h", 0, ∅⟩
      = should_remove_duplicate testEditSim ⟨2, "", "aaaa", "aaaa", "h", 0, ∅⟩
        ⟨1, "", "aa", "aa", "h", 0, ∅⟩ :=
  ⟨rfl, by decide,
    (should_remove_shorter_and_symmetric testEditSim
      ⟨1, "", "aa", "aa", "h", 0, ∅⟩ ⟨2, "", "aaaa", "aaaa", "h", 0, ∅⟩
      rfl (by decide)).1⟩

/-- C3 counterexample to the claim as stated: two candidates with
byte-identical content (equal raw length).  The pairwise comparison
removes id 2 in one order and id 1 in the other, and on the list level
the input order decides which document survives deduplication — the
decision is not symmetric on ties. -/
theorem should_remove_tie_order_dependent :
    tieDocA.content = tieDocB.content
    ∧ mkDocFeature testOracles tieDocA
        = some ⟨1, "a", "abc", "abc", "abc", 3, {"abc"}⟩
    ∧ mkDocFeature testOracles tieDocB
        = some ⟨2, "b", "abc", "abc", "abc", 3, {"abc"}⟩
    ∧ should_remove_duplicate testEditSim
        ⟨1, "a", "abc", "abc", "abc", 3, {"abc"}⟩
        ⟨2, "b", "abc", "abc", "abc", 3, {"abc"}⟩ = some 2
    ∧ should_remove_duplicate testEditSim
        ⟨2, "b", "abc", "abc", "abc", 3, {"abc"}⟩
        ⟨1, "a", "abc", "abc", "abc", 3, {"abc"}⟩ = some 1
    ∧ deduplicate_documents testOracles testEditSim [tieDocA, tieDocB]
        = [tieDocA]
    ∧ deduplicate_documents testOracles testEditSim [tieDocB, tieDocA]
        = [tieDocB] := by
  decide

/-- C5 (amended): for a two-element candidate list whose documents have
byte-identical non-empty normalized text and distinct ids, the
deduplicator removes exactly one of the two: the one with shorter raw
content, or the second on a tie (stage 1 fires, as equal normalized text
gives an equal strong hash). -/
theorem dedup_identical_pair (o : HashOracles)
    (editSim : String → String → ℚ) (d1 d2 : DocResult)
    (hnorm : normalize_text d1.content = normalize_text d2.content)
    (hne : normalize_text d1.content ≠ "")
    (hid : d1.document_id ≠ d2.document_id) :
    deduplicate_documents o editSim [d1, d2]
      = if d1.content.length < d2.content.length then [d2] else [d1] := by
  have hc1 : d1.content ≠ "" := by
    intro h
    apply hne
    rw [h]
    rfl
  have hne2 : normalize_text d2.content ≠ "" := by
    rw [← hnorm]
    exact hne
  have hc2 : d2.content ≠ "" := by
    intro h
    apply hne2
    rw [h]
    rfl
  obtain ⟨f1, hf1⟩ : ∃ f1, mkDocFeature o d1 = some f1 := by
    unfold mkDocFeature
    rw [if_neg hc1, if_neg hne]
    exact ⟨_, rfl⟩
  obtain ⟨f2, hf2⟩ : ∃ f2, mkDocFeature o d2 = some f2 := by
    unfold mkDocFeature
    rw [if_neg hc2, if_neg hne2]
    exact ⟨_, rfl⟩
  have hp1 := mkDocFeature_some o d1 f1 hf1
  have hp2 := mkDocFeature_some o d2 f2 hf2
  have hhash : f1.strong_hash = f2.strong_hash := by
    rw [hp1.2.2.2.1, hp2.2.2.2.1, hnorm]
  have hsr : should_remove_duplicate editSim f1 f2
      = some (if f1.content.length < f2.content.length then f1.document_id
              else f2.document_id) := by
    unfold should_remove_duplicate
    rw [if_pos hhash]
  have hrid : (if f1.content.length < f2.content.length then f1.document_id
        else f2.document_id)
      = if d1.content.length < d2.content.length then d1.document_id
        else d2.document_id := by
    rw [hp1.1, hp2.1, hp1.2.1, hp2.2.1]
  rw [hrid] at hsr
  have hfl : ([d1, d2] : List DocResult).filterMap (mkDocFeature o)
      = [f1, f2] := by
    simp [List.filterMap_cons, hf1, hf2]
  have hstep1 : dedupStep editSim f1 f2 ∅
      = {if d1.content.length < d2.content.length then d1.document_id
         else d2.document_id} := by
    unfold dedupStep
    rw [if_neg (Finset.not_mem_empty _), hsr]
    simp
  have hinner : dedupInner editSim f1 [f2] ∅
      = {if d1.content.length < d2.content.length then d1.document_id
         else d2.document_id} := by
    show dedupInner editSim f1 [] (dedupStep editSim f1 f2 ∅) = _
    rw [hstep1]
    rfl
  have houter : dedupOuter editSim [f1, f2] ∅
      = {if d1.content.length < d2.content.length then d1.document_id
         else d2.document_id} := by
    show dedupOuter editSim [f2]
        (if f1.document_id ∈ (∅ : Finset Int) then ∅
         else dedupInner editSim f1 [f2] ∅) = _
    rw [if_neg (Finset.not_mem_empty _), hinner]
    by_cases hm : f2.document_id
        ∈ ({if d1.content.length < d2.content.length then d1.document_id
            else d2.document_id} : Finset Int)
    · show (if f2.document_id ∈ ({if d1.content.length < d2.content.length
            then d1.document_id else d2.document_id} : Finset Int)
          then ({if d1.content.length < d2.content.length then d1.document_id
            else d2.document_id} : Finset Int)
          else dedupInner editSim f2 []
            {if d1.content.length < d2.content.length then d1.document_id
             else d2.document_id}) = _
      rw [if_pos hm]
    · show (if f2.document_id ∈ ({if d1.content.length < d2.content.length
            then d1.document_id else d2.document_id} : Finset Int)
          then ({if d1.content.length < d2.content.length then d1.document_id
            else d2.document_id} : Finset Int)
          else dedupInner editSim f2 []
            {if d1.content.length < d2.content.length then d1.document_id
             else d2.document_id}) = _
      rw [if_neg hm]
      rfl
  have hlen2 : ¬ ([d1, d2] : List DocResult).length ≤ 1 := by
    simp
  have hflen : ¬ (([d1, d2] : List DocResult).filterMap
      (mkDocFeature o)).length ≤ 1 := by
    rw [hfl]
    simp
  unfold deduplicate_documents
  rw [if_neg hlen2, if_neg hflen, hfl, houter]
  by_cases hlt : d1.content.length < d2.content.length
  · rw [if_pos hlt, if_pos hlt]
    have hm1 : d1.document_id ∈ ({d1.document_id} : Finset Int) :=
      Finset.mem_singleton_self _
    have hm2 : d2.document_id ∉ ({d1.document_id} : Finset Int) := by
      rw [Finset.mem_singleton]
      exact fun hx => hid hx.symm
    have hne21 : ¬ d2.document_id = d1.document_id := fun hx => hid hx.symm
    simp [List.filter_cons, hm1, hm2, hne21]
  · rw [if_neg hlt, if_neg hlt]
    have hm1 : d1.document_id ∉ ({d2.document_id} : Finset Int) := by
      rw [Finset.mem_singleton]
      exact hid
    have hm2 : d2.document_id ∈ ({d2.document_id} : Finset Int) :=
      Finset.mem_singleton_self _
    simp [List.filter_cons, hm1, hm2, hid]

/-- C5 witness: contents abc and abc-space normalize identically; the
shorter raw document (id 1) is removed and the longer (id 2) kept. -/
theorem dedup_identical_pair_witness :
    normalize_text (DocResult.content ⟨1, "s", "abc", []⟩)
        = normalize_text (DocResult.content ⟨2, "l", "abc ", []⟩)
    ∧ normalize_text (DocResult.content ⟨1, "s", "abc", []⟩) ≠ ""
    ∧ DocResult.document_id ⟨1, "s", "abc", []⟩
        ≠ DocResult.document_id ⟨2, "l", "abc ", []⟩
    ∧ deduplicate_documents testOracles testEditSim
        [⟨1, "s", "abc", []⟩, ⟨2, "l", "abc ", []⟩]
      = if (DocResult.content ⟨1, "s", "abc", []⟩).length
            < (DocResult.content ⟨2, "l", "abc ", []⟩).length
        then [⟨2, "l", "abc ", []⟩] else [⟨1, "s", "abc", []⟩] :=
  ⟨by decide, by decide, by decide,
    dedup_identical_pair testOracles testEditSim
      ⟨1, "s", "abc", []⟩ ⟨2, "l", "abc ", []⟩
      (by decide) (by decide) (by decide)⟩

/-- C5 counterexample to the claim as stated: among three candidates
with byte-identical content, the pair formed by the second and third
candidates has byte-identical normalized text, yet both are removed
(each loses its tie against the first candidate), so the deduplicator
does not remove exactly one of that pair, and with equal raw lengths no
kept document is longer. -/
theorem dedup_identical_pair_counterexample :
    normalize_text dupDoc2.content = normalize_text dupDoc3.content
    ∧ dupDoc2.content.length = dupDoc3.content.length
    ∧ deduplicate_documents testOracles testEditSim [dupDoc1, dupDoc2, dupDoc3]
        = [dupDoc1]
    ∧ dupDoc2 ∉ deduplicate_documents testOracles testEditSim
        [dupDoc1, dupDoc2, dupDoc3]
    ∧ dupDoc3 ∉ deduplicate_documents testOracles testEditSim
        [dupDoc1, dupDoc2, dupDoc3] := by
  decide

/-- C6: the synthesizer's completion-call protocol.  When the combined
content length is within the budget exactly one completion call is made
(the direct-knowledge call when no candidate survived, the single-pass
call otherwise); when it exceeds the budget, every candidate receives
exactly one per-candidate call, in order, followed by the single final
merge call, and there is at least one candidate. -/
theorem generate_answer_budget (results : List DocResult) (maxLen : Nat) :
    ((results.map fun d => d.content.length).sum ≤ maxLen →
      (generate_answer_calls results maxLen).length = 1)
    ∧ (maxLen < (results.map fun d => d.content.length).sum →
      generate_answer_calls results maxLen
        = ((List.range results.length).map fun i => LlmCall.perDocAnswer (i + 1))
            ++ [LlmCall.mergeAnswer]
      ∧ 1 ≤ results.length
      ∧ (((List.range results.length).map
            fun i => LlmCall.perDocAnswer (i + 1)).length = results.length)) := by
  constructor
  · intro hle
    by_cases hnil : results = []
    · simp [generate_answer_calls, hnil]
    · simp [generate_answer_calls, hnil, hle]
  · intro hgt
    have hnil : results ≠ [] := by
      intro h
      rw [h] at hgt
      simp at hgt
    have hlen : 1 ≤ results.length := by
      cases results with
      | nil => exact absurd rfl hnil
      | cons a l => simp
    have hnotle : ¬ (results.map fun d => d.content.length).sum ≤ maxLen := by
      omega
    refine ⟨?_, hlen, by simp⟩
    simp [generate_answer_calls, hnil, hnotle]

/-- C6 witness: one candidate of content length 3 against budget 10
(single call) and against budget 2 (its per-candidate call, then the
merge call). -/
theorem generate_answer_budget_witness :
    (([⟨1, "t", "abc", []⟩] : List DocResult).map
        fun d => d.content.length).sum ≤ 10
    ∧ (generate_answer_calls [⟨1, "t", "abc", []⟩] 10).length = 1
    ∧ 2 < (([⟨1, "t", "abc", []⟩] : List DocResult).map
        fun d => d.content.length).sum
    ∧ generate_answer_calls [⟨1, "t", "abc", []⟩] 2
        = [LlmCall.perDocAnswer 1, LlmCall.mergeAnswer] :=
  ⟨by decide,
    (generate_answer_budget [⟨1, "t", "abc", []⟩] 10).1 (by decide),
    by decide,
    by
      have h := ((generate_answer_budget [⟨1, "t", "abc", []⟩] 2).2
        (by decide)).1
      simpa using h⟩

/-- C7: the relevance filter's surviving documents are always drawn from
its input (every branch returns the input list, the empty list, or a
filter of the input); a database failure or an LLM failure keeps every
candidate; and with more than one candidate, a non-empty summary fetch
and an LLM reply listing no relevant ids, both outputs become empty
without error. -/
theorem filter_documents_by_summary_spec (results : List DocResult)
    (dbFetch : Except Unit (List SummaryRow)) (llm : Except Unit (List Int)) :
    (∀ d ∈ (filter_documents_by_summary results dbFetch llm).filtered_results,
      d ∈ results)
    ∧ (llm = .error () →
      (filter_documents_by_summary results dbFetch llm).filtered_results
        = results)
    ∧ (dbFetch = .error () →
      (filter_documents_by_summary results dbFetch llm).filtered_results
        = results)
    ∧ (∀ rows, dbFetch = .ok rows → rows ≠ [] → llm = .ok [] →
        1 < results.length →
      (filter_documents_by_summary results dbFetch llm).filtered_results = []
      ∧ (filter_documents_by_summary results dbFetch llm).filtered_document_ids
          = []) := by
  refine ⟨?_, ?_, ?_, ?_⟩
  · intro d hd
    unfold filter_documents_by_summary at hd
    by_cases hle : results.length ≤ 1
    · rw [if_pos hle] at hd
      exact hd
    · rw [if_neg hle] at hd
      cases dbFetch with
      | error e => exact hd
      | ok rows =>
        dsimp only at hd
        by_cases hrows : (rows.map fun r =>
            (r.id, r.title, r.ai_summary.getD "未生成摘要")) = []
        · rw [if_pos hrows] at hd
          exact hd
        · rw [if_neg hrows] at hd
          cases llm with
          | error e => exact hd
          | ok relevant_ids =>
            dsimp only at hd
            by_cases hrel : relevant_ids = []
            · rw [if_pos hrel] at hd
              simp at hd
            · rw [if_neg hrel] at hd
              exact (List.mem_filter.mp hd).1
  · intro h
    subst h
    unfold filter_documents_by_summary
    by_cases hle : results.length ≤ 1
    · rw [if_pos hle]
    · rw [if_neg hle]
      cases dbFetch with
      | error e => rfl
      | ok rows =>
        dsimp only
        by_cases hrows : (rows.map fun r =>
            (r.id, r.title, r.ai_summary.getD "未生成摘要")) = []
        · rw [if_pos hrows]
        · rw [if_neg hrows]
  · intro h
    subst h
    unfold filter_documents_by_summary
    by_cases hle : results.length ≤ 1
    · rw [if_pos hle]
    · rw [if_neg hle]
  · intro rows h1 h2 h3 h4
    subst h1
    subst h3
    have hle : ¬ results.length ≤ 1 := by omega
    have hrows : (rows.map fun r =>
        (r.id, r.title, r.ai_summary.getD "未生成摘要")) ≠ [] := by
      simpa using h2
    unfold filter_documents_by_summary
    rw [if_neg hle]
    dsimp only
    rw [if_neg hrows]
    rw [if_pos rfl]
    exact ⟨rfl, rfl⟩

/-- C7 witness: two candidates, a summary row, and an LLM reply listing
no relevant ids leave an empty result; the subset property holds at the
same input. -/
theorem filter_documents_by_summary_spec_witness :
    ((Except.ok [(⟨1, "t", none⟩ : SummaryRow)]
        : Except Unit (List SummaryRow)) = .ok [⟨1, "t", none⟩]
      ∧ ([(⟨1, "t", none⟩ : SummaryRow)] : List SummaryRow) ≠ []
      ∧ (Except.ok [] : Except Unit (List Int)) = .ok []
      ∧ 1 < ([⟨1, "t", "a", []⟩, ⟨2, "u", "b", []⟩] : List DocResult).length)
    ∧ (filter_documents_by_summary
        [⟨1, "t", "a", []⟩, ⟨2, "u", "b", []⟩]
        (.ok [⟨1, "t", none⟩]) (.ok [])).filtered_results = [] :=
  ⟨⟨rfl, by decide, rfl, by decide⟩,
    ((filter_documents_by_summary_spec
        [⟨1, "t", "a", []⟩, ⟨2, "u", "b", []⟩]
        (.ok [⟨1, "t", none⟩]) (.ok [])).2.2.2
      [⟨1, "t", none⟩] rfl (by decide) rfl (by decide)).1⟩

/-- C8 (confirmed): the refinement filter never returns more candidates
than the fused id set holds.  Hypotheses: the loaded fused documents are
at most as many as the fused ids (fusion loads each id at most once), and
the full-text collaborator honours its contract — hit ids are distinct
(the index keys documents by document_id), lie in the query's
document_id filter, and at most size hits return.  Every fallthrough,
ambiguity and failure branch returns the fused documents; the re-query
branch returns hits filtered to the fused id set. -/
theorem refined_filtering_count
    (merged_documents : List DbDocument) (merged_document_ids : List Int)
    (category : String) (typeFields : Except Unit (List FieldDef))
    (llm : Except Unit (List (String × String) × List String))
    (esSearch : RefinedQuery → Except Unit (List DocResult))
    (hdocs : merged_documents.length ≤ merged_document_ids.length)
    (hes : ∀ q hits, esSearch q = .ok hits →
        (hits.map (·.document_id)).Nodup
        ∧ (∀ h ∈ hits, h.document_id ∈ q.filter_document_ids)
        ∧ hits.length ≤ q.size) :
    (refined_filtering merged_documents merged_document_ids category
        typeFields llm esSearch).final_results.length
      ≤ merged_document_ids.length := by
  unfold refined_filtering
  by_cases h1 : merged_documents = []
  · rw [if_pos h1]
    simp
  · rw [if_neg h1]
    by_cases h2 : category = "*"
    · rw [if_pos h2]
      simpa [convert_docs_to_results] using hdocs
    · rw [if_neg h2]
      cases typeFields with
      | error e => simpa [convert_docs_to_results] using hdocs
      | ok fields =>
        dsimp only
        by_cases h3 : fields = []
        · rw [if_pos h3]
          simpa [convert_docs_to_results] using hdocs
        · rw [if_neg h3]
          cases llm with
          | error e => simpa [convert_docs_to_results] using hdocs
          | ok pair =>
            obtain ⟨conditions, missing⟩ := pair
            dsimp only
            by_cases h4 : conditions = [] ∧ missing ≠ []
            · rw [if_pos h4]
              simpa [convert_docs_to_results] using hdocs
            · rw [if_neg h4]
              by_cases h5 : conditions = []
              · rw [if_pos h5]
                simpa [convert_docs_to_results] using hdocs
              · rw [if_neg h5]
                cases hesq : esSearch
                    ⟨build_must_clauses
                        (fields.map fun f => (f.field_name, f.field_type))
                        conditions,
                      merged_document_ids, 5⟩ with
                | error e => simpa [convert_docs_to_results] using hdocs
                | ok hits =>
                  obtain ⟨hnodup, hin, _⟩ := hes _ hits hesq
                  have h7 : (hits.map (·.document_id)).toFinset.card
                      = (hits.map (·.document_id)).length :=
                    List.toFinset_card_of_nodup hnodup
                  have h8 : (hits.map (·.document_id)).toFinset
                      ⊆ merged_document_ids.toFinset := by
                    intro x hx
                    rw [List.mem_toFinset] at hx ⊢
                    rcases List.mem_map.mp hx with ⟨hdoc, hmemd, hxid⟩
                    rw [← hxid]
                    exact hin hdoc hmemd
                  have h9 := Finset.card_le_card h8
                  have h10 := List.toFinset_card_le merged_document_ids
                  have h11 : (hits.map (·.document_id)).length = hits.length :=
                    List.length_map _ _
                  dsimp only
                  omega

/-- C8 witness: one loaded fused document against two fused ids, wildcard
category, failing re-query collaborator: one result, at most two. -/
theorem refined_filtering_count_witness :
    ([⟨5, "t", some "c", none⟩] : List DbDocument).length
        ≤ ([5, 6] : List Int).length
    ∧ (∀ (q : RefinedQuery) (hits : List DocResult),
        (fun _ : RefinedQuery =>
          (Except.error () : Except Unit (List DocResult))) q = .ok hits →
        (hits.map (·.document_id)).Nodup
        ∧ (∀ h ∈ hits, h.document_id ∈ q.filter_document_ids)
        ∧ hits.length ≤ q.size)
    ∧ (refined_filtering [⟨5, "t", some "c", none⟩] [5, 6] "*"
        (.ok []) (.ok ([], []))
        (fun _ => .error ())).final_results.length
      ≤ ([5, 6] : List Int).length :=
  ⟨by decide,
    fun _ _ h => Except.noConfusion h,
    refined_filtering_count [⟨5, "t", some "c", none⟩] [5, 6] "*"
      (.ok []) (.ok ([], [])) (fun _ => .error ())
      (by decide) (fun _ _ h => Except.noConfusion h)⟩

/-- C9: a failed LLM call or an empty returned plan degrades the planner
to the single document_retrieval step with need_retrieval true; a
non-empty returned plan is kept and need_retrieval holds exactly when
some step's action is document_retrieval. -/
theorem function_calling_router_spec :
    (function_calling_router (.error ())
        = ⟨default_retrieval_plan, [], true⟩)
    ∧ (∀ reasoning : String,
        function_calling_router (.ok ([], reasoning))
          = ⟨default_retrieval_plan, [], true⟩)
    ∧ default_retrieval_plan = [⟨1, "document_retrieval", none, "文档检索"⟩]
    ∧ (∀ (plan : List PlanStep) (reasoning : String), plan ≠ [] →
        (function_calling_router (.ok (plan, reasoning))).execution_plan = plan
        ∧ ((function_calling_router (.ok (plan, reasoning))).need_retrieval
              = true
            ↔ ∃ s ∈ plan, s.action = "document_retrieval")) := by
  refine ⟨rfl, fun _ => rfl, rfl, ?_⟩
  intro plan reasoning hne
  constructor
  · simp [function_calling_router, hne]
  · simp [function_calling_router, hne, List.any_eq_true]

/-- C9 witness: a concrete non-empty plan of one tool call and one
document_retrieval step keeps the plan and sets need_retrieval. -/
theorem function_calling_router_spec_witness :
    ([⟨1, "tool_call", some "get_template_statistics", "统计"⟩,
      ⟨2, "document_retrieval", none, "检索"⟩] : List PlanStep) ≠ []
    ∧ ((function_calling_router (.ok
          ([⟨1, "tool_call", some "get_template_statistics", "统计"⟩,
            ⟨2, "document_retrieval", none, "检索"⟩], "r"))).need_retrieval = true
        ↔ ∃ s ∈ ([⟨1, "tool_call", some "get_template_statistics", "统计"⟩,
            ⟨2, "document_retrieval", none, "检索"⟩] : List PlanStep),
          s.action = "document_retrieval") :=
  ⟨by decide,
    (function_calling_router_spec.2.2.2
      [⟨1, "tool_call", some "get_template_statistics", "统计"⟩,
        ⟨2, "document_retrieval", none, "检索"⟩] "r" (by decide)).2⟩

end DocHive
